import Mathlib

set_option maxHeartbeats 2000000

/-!
Verification development for the spectrum-analyzer frequency-mapping and
pitch-estimation core.

The definitions below are shallow embeddings of the TypeScript source:

* `getNormalizedSpectrum` / `normalizedBandValue` embed
  `AudioAnalyzer.getNormalizedSpectrum` (src/lib/audio.ts, lines 289-324).
* `getCustomFrequencyData` / `customValueAt` / `boostFactor` / `lowFreqAccum`
  embed `AudioAnalyzer.getCustomFrequencyData` (src/lib/audio.ts, lines 211-282).
* `correlationAt` / `pitchStep` / `pitchSearch` / `detectPitch` embed
  `AudioAnalyzer.detectPitch` (src/lib/audio.ts, lines 163-205).
* `setFFTSize` embeds `AudioAnalyzer.setFFTSize` (src/lib/audio.ts, lines 339-352).
* `fileBandIndex` / `fileGetNormalizedSpectrum` embed
  `AudioFileProcessor.getNormalizedSpectrum`
  (src/components/analyzer/AudioFileAnalyzer.tsx, lines 135-171).
* `animateBandValue` embeds the per-frequency-point mapping of `animate`
  (src/components/analyzer/SpectrumAnalyzer.tsx, lines 160-192).
* `logBandIndex` / `part001BandValue` embed the per-frequency-point mapping of
  `animate` in the unnamed component file (src/unnamed/part_001, lines 105-132).

JavaScript numbers are modelled by `ℚ` (all arithmetic performed by these
functions on their working ranges is exact in double precision), except for the
logarithmic index computations, which use `ℝ` and `Real.logb`.  Division by
zero, which in JavaScript produces `NaN` (for `0/0`) or `±Infinity`, is
modelled by `jsDiv` returning `none`; in every embedded code path such a value
flows into a bin-range test of the form `0 ≤ i ∧ i < len`, which is false for
`NaN` and for the out-of-range infinities produced here (the numerators are
nonnegative), so both the JavaScript code and the embedding yield the band
fill value in that case.  The embeddings are faithful for nonnegative sample
rates (a session's sample rate is a fixed positive number, 44100 Hz by
default).  `Uint8Array` contents are modelled by `List ℕ` with entries below
256; a `null` (unavailable) buffer takes the same all-zero branch as an empty
one in every embedded function, so it is modelled by the empty list.
-/

/-- Division as JavaScript performs it on the embedded code paths: a zero
denominator yields `none`, standing for the `NaN` or `Infinity` that the
JavaScript division produces there. -/
def jsDiv (a b : ℚ) : Option ℚ :=
  if b = 0 then none else some (a / b)

/-- Math.round: round half toward positive infinity. -/
def jsRound (q : ℚ) : ℤ :=
  ⌊q + 1 / 2⌋

/-- Loop body of `AudioAnalyzer.getNormalizedSpectrum` (audio.ts lines
309-321): band `i` of `bands` maps to the linearly spaced target frequency
`20 + (i/(bands-1))*(20000-20)`, which is converted to a bin index by
rounding `freqForBand / freqPerBin`; an out-of-range index leaves the band at
its fill value 0.  For `bands = 1` the JavaScript expression `i/(bands-1)` is
`0/0 = NaN`, the range check fails, and the band stays 0. -/
def normalizedBandValue (freqData : List ℕ) (sampleRate : ℚ) (bands i : ℕ) : ℕ :=
  let binCount := freqData.length
  let freqPerBin := sampleRate / 2 / (binCount : ℚ)
  match jsDiv (i : ℚ) ((bands : ℚ) - 1) with
  | none => 0
  | some t =>
    let freqForBand : ℚ := 20 + t * (20000 - 20)
    match jsDiv freqForBand freqPerBin with
    | none => 0
    | some e =>
      let binIndex : ℤ := jsRound e
      if 0 ≤ binIndex ∧ binIndex < (binCount : ℤ) then freqData.getD binIndex.toNat 0
      else 0

/-- Embedding of `AudioAnalyzer.getNormalizedSpectrum` (audio.ts lines
289-324).  A `null` or empty frequency buffer yields `bands` zeros; otherwise
each band is produced by `normalizedBandValue`. -/
def getNormalizedSpectrum (freqData : List ℕ) (sampleRate : ℚ) (bands : ℕ) : List ℕ :=
  if freqData.length = 0 then List.replicate bands 0
  else (List.range bands).map (normalizedBandValue freqData sampleRate bands)

/-- Low-frequency amplification factor of `AudioAnalyzer.getCustomFrequencyData`
(audio.ts line 268): `boost = 1.2 + (1 - targetFreq / 100) * 0.8`. -/
def boostFactor (targetFreq : ℚ) : ℚ :=
  1.2 + (1 - targetFreq / 100) * 0.8

/-- Accumulation loop of `AudioAnalyzer.getCustomFrequencyData` (audio.ts lines
252-261): starting from `(init, 1)`, for `j = 1 .. range` add the two
neighbour bins at distance `j` (index-clamped) with weight
`(range - j + 1) / (range + 1)` to the running `(sum, weight)` pair. -/
def lowFreqAccum (freqData : List ℕ) (lower upper : ℤ) (range : ℕ) (init : ℚ) : ℚ × ℚ :=
  (List.range' 1 range).foldl
    (fun (acc : ℚ × ℚ) j =>
      let lIndex : ℤ := max 0 (lower - (j : ℤ))
      let uIndex : ℤ := min ((freqData.length : ℤ) - 1) (upper + (j : ℤ))
      let w : ℚ := ((range : ℚ) - (j : ℚ) + 1) / ((range : ℚ) + 1)
      (acc.1 + (freqData.getD lIndex.toNat 0 : ℚ) * w + (freqData.getD uIndex.toNat 0 : ℚ) * w,
        acc.2 + w * 2))
    (init, 1)

/-- Loop body of `AudioAnalyzer.getCustomFrequencyData` (audio.ts lines
225-279) for a single target frequency: linear interpolation between the two
surrounding bins, a weighted neighbourhood average below 1000 Hz, the
`boostFactor` amplification clipped to 255 below 100 Hz, and boundary-bin
fallback for out-of-range indices.  Faithful for a positive sample rate and a
non-empty buffer (as guarded by the caller). -/
def customValueAt (freqData : List ℕ) (sampleRate : ℚ) (targetFreq : ℚ) : ℚ :=
  let binCount := freqData.length
  let freqPerBin := sampleRate / 2 / (binCount : ℚ)
  let exactBinIndex := targetFreq / freqPerBin
  let lowerBinIndex : ℤ := ⌊exactBinIndex⌋
  let upperBinIndex : ℤ := ⌈exactBinIndex⌉
  if 0 ≤ lowerBinIndex ∧ upperBinIndex < (binCount : ℤ) then
    let fraction := exactBinIndex - (lowerBinIndex : ℚ)
    let lowerValue : ℚ := freqData.getD lowerBinIndex.toNat 0
    let upperValue : ℚ := freqData.getD upperBinIndex.toNat 0
    let base := lowerValue * (1 - fraction) + upperValue * fraction
    if targetFreq < 1000 then
      let range : ℕ := (⌈5 * (1 - targetFreq / 1000)⌉).toNat
      let sw := lowFreqAccum freqData lowerBinIndex upperBinIndex range base
      let averaged := sw.1 / sw.2
      if targetFreq < 100 then min 255 (averaged * boostFactor targetFreq)
      else averaged
    else base
  else if lowerBinIndex < 0 then (freqData.getD 0 0 : ℚ)
  else (freqData.getD (binCount - 1) 0 : ℚ)

/-- Embedding of `AudioAnalyzer.getCustomFrequencyData` (audio.ts lines
211-282): a `null` or empty buffer yields zeros, otherwise each requested
frequency point is mapped by `customValueAt`. -/
def getCustomFrequencyData (freqData : List ℕ) (sampleRate : ℚ)
    (frequencyPoints : List ℚ) : List ℚ :=
  if freqData.length = 0 then List.replicate frequencyPoints.length 0
  else frequencyPoints.map (customValueAt freqData sampleRate)

/-- Per-frequency-point mapping of `animate` in SpectrumAnalyzer.tsx (lines
160-192): primary index `Math.floor(targetFreq / binWidth)`; below 2000 Hz the
two neighbour bins weighted 0.8 are also sampled and the maximum of the three
is taken; an out-of-range index falls back to the nearest valid index
(`rawData[closestIndex] || 0`, which `List.getD` with default 0 reproduces).
Faithful for positive `numRawDataBands` and positive sample rate. -/
def animateBandValue (rawData : List ℚ) (numRawDataBands : ℕ) (sampleRate : ℚ)
    (targetFreq : ℚ) : ℚ :=
  let binWidth := sampleRate / 2 / (numRawDataBands : ℚ)
  let index : ℤ := ⌊targetFreq / binWidth⌋
  if 0 ≤ index ∧ index < (numRawDataBands : ℤ) then
    let v := rawData.getD index.toNat 0
    if targetFreq < 2000 then
      let prevIndex : ℤ := max 0 (index - 1)
      let nextIndex : ℤ := min ((numRawDataBands : ℤ) - 1) (index + 1)
      max v (max (rawData.getD prevIndex.toNat 0 * 0.8) (rawData.getD nextIndex.toNat 0 * 0.8))
    else v
  else
    let closestIndex : ℤ := min (max 0 index) ((numRawDataBands : ℤ) - 1)
    rawData.getD closestIndex.toNat 0

/-- Autocorrelation of `AudioAnalyzer.detectPitch` (audio.ts lines 174-181):
`corr[lag] = Σ_{i=0}^{N-lag-1} (x[i]-128) * (x[i+lag]-128)`. -/
def correlationAt (x : List ℕ) (lag : ℕ) : ℤ :=
  (List.range (x.length - lag)).foldl
    (fun acc i => acc + ((x.getD i 0 : ℤ) - 128) * ((x.getD (i + lag) 0 : ℤ) - 128)) 0

/-- One iteration of the peak-search loop of `AudioAnalyzer.detectPitch`
(audio.ts lines 190-195): the accumulator is `(maxCorrelation, maxLag)` and is
replaced when the current lag's correlation strictly exceeds the running
maximum. -/
def pitchStep (x : List ℕ) (acc : ℤ × ℤ) (lag : ℕ) : ℤ × ℤ :=
  if correlationAt x lag > acc.1 then (correlationAt x lag, (lag : ℤ)) else acc

/-- Peak search of `AudioAnalyzer.detectPitch` over lags `start, …, n-1`,
starting from `maxCorrelation = -1`, `maxLag = -1` (audio.ts lines 183-195). -/
def pitchSearch (x : List ℕ) (start n : ℕ) : ℤ × ℤ :=
  (List.range' start (n - start)).foldl (pitchStep x) (-1, -1)

/-- Embedding of `AudioAnalyzer.detectPitch` (audio.ts lines 163-205) on an
available time-domain buffer: search lags from `Math.floor(sampleRate/1000)`
up to the buffer length, return 0 when `maxLag ≤ 0` and `sampleRate / maxLag`
otherwise.  Faithful for a nonnegative sample rate. -/
def detectPitch (x : List ℕ) (sampleRate : ℚ) : ℚ :=
  let minPeriod := sampleRate / 1000
  let start : ℕ := (⌊minPeriod⌋).toNat
  let maxLag := (pitchSearch x start x.length).2
  if maxLag ≤ 0 then 0 else sampleRate / (maxLag : ℚ)

/-- Band index computation of `AudioFileProcessor.getNormalizedSpectrum`
(AudioFileAnalyzer.tsx lines 158-162):
`min(floor(bands * log10(freq/20) / log10(maxFreq/20)), bands - 1)` with
`maxFreq = 20000`. -/
noncomputable def fileBandIndex (bands : ℕ) (freq : ℝ) : ℤ :=
  min ⌊((bands : ℝ) * Real.logb 10 (freq / 20)) / Real.logb 10 ((20000 : ℝ) / 20)⌋
    ((bands : ℤ) - 1)

/-- Loop body of `AudioFileProcessor.getNormalizedSpectrum`
(AudioFileAnalyzer.tsx lines 152-168): bin `i` at frequency `i * binFreq` is
skipped below 20 Hz, otherwise it is accumulated by maximum into the display
band `fileBandIndex` (guarded by `bandIndex >= 0`). -/
noncomputable def fileStep (freqData : List ℕ) (binFreq : ℚ) (bands : ℕ)
    (result : List ℕ) (i : ℕ) : List ℕ :=
  let freq : ℚ := (i : ℚ) * binFreq
  if freq < 20 then result
  else
    let bandIndex := fileBandIndex bands (freq : ℝ)
    if 0 ≤ bandIndex then
      result.set bandIndex.toNat (max (result.getD bandIndex.toNat 0) (freqData.getD i 0))
    else result

/-- Embedding of `AudioFileProcessor.getNormalizedSpectrum`
(AudioFileAnalyzer.tsx lines 135-171): scan the raw bins up to
`min(floor(20000/binFreq), len)`, skip frequencies below 20 Hz, and accumulate
each bin into its logarithmic display band by maximum.  An unavailable
analyser yields zeros just like an empty buffer (`maxBin = 0`).  Faithful for
positive sample rate and transform size. -/
noncomputable def fileGetNormalizedSpectrum (freqData : List ℕ) (sampleRate : ℚ)
    (fftSize : ℕ) (bands : ℕ) : List ℕ :=
  let binFreq : ℚ := sampleRate / (fftSize : ℚ)
  let maxBin : ℤ := min ⌊(20000 : ℚ) / binFreq⌋ (freqData.length : ℤ)
  (List.range maxBin.toNat).foldl (fileStep freqData binFreq bands)
    (List.replicate bands 0)

/-- Band index computation of `animate` in src/unnamed/part_001 (lines
115-126): the normalized logarithmic position of the target frequency between
20 Hz and 20000 Hz, clamped to `[0, 1]`, scaled by `numRawDataBands - 1` and
floored. -/
noncomputable def logBandIndex (numRawDataBands : ℕ) (targetFreq : ℝ) : ℤ :=
  let minFreqLog := Real.logb 10 20
  let maxFreqLog := Real.logb 10 20000
  let normalizedLogPosition := (Real.logb 10 targetFreq - minFreqLog) / (maxFreqLog - minFreqLog)
  let boundedPosition := max 0 (min normalizedLogPosition 1)
  ⌊boundedPosition * ((numRawDataBands : ℝ) - 1)⌋

open Classical in
/-- Per-frequency-point mapping of `animate` in src/unnamed/part_001 (lines
105-132): frequencies outside `[20, 20000]` yield 0, otherwise the band value
is looked up at `logBandIndex` (`rawData[bandIndex] !== undefined` is the
range test). -/
noncomputable def part001BandValue (rawData : List ℕ) (numRawDataBands : ℕ)
    (targetFreq : ℝ) : ℕ :=
  if targetFreq < 20 ∨ targetFreq > 20000 then 0
  else
    let bandIndex := logBandIndex numRawDataBands targetFreq
    if 0 ≤ bandIndex ∧ bandIndex < (rawData.length : ℤ) then rawData.getD bandIndex.toNat 0
    else 0

/-- Configuration state of `AudioAnalyzer` relevant to `setFFTSize`: whether an
analyser node exists, the stored transform size, and the two allocated data
buffers. -/
structure AnalyzerState where
  hasAnalyser : Bool
  fftSize : ℕ
  frequencyData : List ℕ
  timeData : List ℕ
deriving DecidableEq

/-- Unsigned 32-bit pattern of the JavaScript `ToInt32` conversion applied to
an integer: JavaScript bitwise operators truncate both operands to 32 bits,
and the two's-complement bit pattern of `ToInt32 z` is `z mod 2^32`. -/
def js32 (z : ℤ) : ℕ :=
  (z % 2 ^ 32).toNat

/-- Embedding of `AudioAnalyzer.setFFTSize` (audio.ts lines 339-352).  The
returned boolean records whether the size was rejected with the
power-of-two diagnostic.  JavaScript evaluates `size & (size - 1)` on the
`ToInt32`-truncated operands; bitwise AND commutes with the two's-complement
reinterpretation, and the result is truthy exactly when the AND of the two
32-bit patterns is nonzero, which `js32 size &&& js32 (size - 1)` computes
(for `size = 0` the second operand is `-1`, whose pattern is `2^32 - 1`, so
the test is `0 &&& (2^32 - 1) = 0` and the size is accepted).  On acceptance
the stored size is updated (audio.ts line 348) and both buffers are
reallocated to `frequencyBinCount = size / 2` zeros (lines 350-351); the
analyser node itself is modelled as plain storage — in a browser the external
`AnalyserNode.fftSize` setter (line 349) throws on sizes the Web Audio API
does not support, after the stored size was already overwritten, so theorems
about accepted invalid sizes below only rely on the rejection flag and the
stored `fftSize`, never on the reallocated buffers. -/
def setFFTSize (st : AnalyzerState) (size : ℕ) : AnalyzerState × Bool :=
  if !st.hasAnalyser then (st, false)
  else if js32 (size : ℤ) &&& js32 ((size : ℤ) - 1) ≠ 0 then (st, true)
  else ({ st with
            fftSize := size
            frequencyData := List.replicate (size / 2) 0
            timeData := List.replicate (size / 2) 0 },
        false)

/-! Helper lemmas shared by the claim theorems. -/

/-- Invariants are preserved along a left fold. -/
theorem foldl_preserves {α β : Type} (f : α → β → α) (P : α → Prop) :
    ∀ (l : List β) (a : α), P a → (∀ x y, P x → y ∈ l → P (f x y)) → P (l.foldl f a) := by
  intro l
  induction l with
  | nil => intro a ha _; exact ha
  | cons b t ih =>
    intro a ha hstep
    exact ih (f a b) (hstep a b ha (List.mem_cons_self b t))
      (fun x y hx hy => hstep x y hx (List.mem_cons_of_mem b hy))

/-- Reading a list with a default stays below a bound satisfied by all entries
and the default. -/
theorem getD_le_of_forall_le (l : List ℕ) (n d m : ℕ) (hl : ∀ v ∈ l, v ≤ m) (hd : d ≤ m) :
    l.getD n d ≤ m := by
  rcases Nat.lt_or_ge n l.length with h | h
  · rw [List.getD_eq_getElem l d h]
    exact hl _ (List.getElem_mem h)
  · rw [List.getD_eq_default l d h]
    exact hd

/-- A positive natural number with `n &&& (n - 1) = 0` is a power of two. -/
theorem exists_pow_of_land_pred_eq_zero :
    ∀ n : ℕ, 0 < n → n &&& (n - 1) = 0 → ∃ k : ℕ, n = 2 ^ k := by
  intro n
  induction n using Nat.strong_induction_on with
  | _ n ih =>
    intro hpos hland
    rcases Nat.mod_two_eq_zero_or_one n with he | ho
    · have hmpos : 0 < n / 2 := by omega
      have key : Nat.bit false (n / 2) &&& Nat.bit true (n / 2 - 1) = 0 := by
        have e1 : Nat.bit false (n / 2) = n := by simp [Nat.bit_val]; omega
        have e2 : Nat.bit true (n / 2 - 1) = n - 1 := by simp [Nat.bit_val]; omega
        rw [e1, e2]; exact hland
      rw [Nat.land_bit] at key
      simp [Nat.bit_val] at key
      obtain ⟨k, hk⟩ := ih (n / 2) (by omega) hmpos key
      refine ⟨k + 1, ?_⟩
      have e3 : n = 2 * (n / 2) := by omega
      rw [e3, hk, pow_succ]
      ring
    · have key : Nat.bit true (n / 2) &&& Nat.bit false (n / 2) = 0 := by
        have e1 : Nat.bit true (n / 2) = n := by simp [Nat.bit_val]; omega
        have e2 : Nat.bit false (n / 2) = n - 1 := by simp [Nat.bit_val]; omega
        rw [e1, e2]; exact hland
      rw [Nat.land_bit] at key
      simp [Nat.bit_val] at key
      exact ⟨0, by omega⟩

/-- The concrete size 4095 is not a power of two. -/
theorem not_pow_two_4095 : ¬ ∃ k : ℕ, (4095 : ℕ) = 2 ^ k := by
  rintro ⟨k, hk⟩
  rcases lt_or_ge k 12 with h | h
  · interval_cases k <;> norm_num at hk
  · have h2 : (2 : ℕ) ^ 12 ≤ 2 ^ k := Nat.pow_le_pow_right (by norm_num) h
    rw [← hk] at h2
    norm_num at h2

/-- The wrap-around size `2^33 + 32` is not a power of two. -/
theorem not_pow_two_wrap : ¬ ∃ k : ℕ, (2 ^ 33 + 32 : ℕ) = 2 ^ k := by
  rintro ⟨k, hk⟩
  rcases lt_or_ge k 6 with h | h
  · have hle : (2 : ℕ) ^ k ≤ 2 ^ 5 := Nat.pow_le_pow_right (by norm_num) (by omega)
    have h5 : (2 : ℕ) ^ 5 = 32 := by norm_num
    have h33 : (2 : ℕ) ^ 33 = 8589934592 := by norm_num
    omega
  · have hdvd : (64 : ℕ) ∣ 2 ^ k := by
      have hd : (2 : ℕ) ^ 6 ∣ 2 ^ k := pow_dvd_pow 2 h
      simpa using hd
    rw [← hk] at hdvd
    have h1 : (64 : ℕ) ∣ 2 ^ 33 := by
      have hd : (2 : ℕ) ^ 6 ∣ 2 ^ 33 := pow_dvd_pow 2 (by norm_num)
      simpa using hd
    have h2 : (64 : ℕ) ∣ 32 := (Nat.dvd_add_right h1).mp hdvd
    norm_num at h2

/-- Claim C7 counterexample: two non-power-of-two sizes pass the rejection
test of `setFFTSize` — the size 0 (JavaScript computes `0 & -1 = 0`) and the
size `2^33 + 32`, whose 32-bit truncation wraps to `32 & 31 = 0`.  In both
cases no diagnostic is signalled and the stored transform size is overwritten
(to 0, resp. `2^33 + 32`) instead of the prior value 8 being retained, so
"every non-power-of-two size is rejected with the prior configuration
retained" fails. -/
theorem claim_C7_counterexample :
    ¬ (∃ k : ℕ, (0 : ℕ) = 2 ^ k) ∧
    ¬ (∃ k : ℕ, (2 ^ 33 + 32 : ℕ) = 2 ^ k) ∧
    (setFFTSize ⟨true, 8, [0, 0, 0, 0], [0, 0, 0, 0]⟩ 0).2 = false ∧
    (setFFTSize ⟨true, 8, [0, 0, 0, 0], [0, 0, 0, 0]⟩ 0).1.fftSize = 0 ∧
    (setFFTSize ⟨true, 8, [0, 0, 0, 0], [0, 0, 0, 0]⟩ (2 ^ 33 + 32)).2 = false ∧
    (setFFTSize ⟨true, 8, [0, 0, 0, 0], [0, 0, 0, 0]⟩ (2 ^ 33 + 32)).1.fftSize =
      2 ^ 33 + 32 ∧
    (0 : ℕ) ≠ 8 ∧ (2 ^ 33 + 32 : ℕ) ≠ 8 := by
  have htest0 : js32 ((0 : ℕ) : ℤ) &&& js32 (((0 : ℕ) : ℤ) - 1) = 0 := by decide
  have htestw : js32 ((2 ^ 33 + 32 : ℕ) : ℤ) &&& js32 (((2 ^ 33 + 32 : ℕ) : ℤ) - 1) = 0 := by
    decide
  refine ⟨?_, not_pow_two_wrap, ?_, ?_, ?_, ?_, by norm_num, by norm_num⟩
  · rintro ⟨k, hk⟩
    exact (pow_pos (by norm_num : (0 : ℕ) < 2) k).ne hk
  · unfold setFFTSize
    rw [if_neg (by simp), if_neg (fun h => h htest0)]
  · unfold setFFTSize
    rw [if_neg (by simp), if_neg (fun h => h htest0)]
  · unfold setFFTSize
    rw [if_neg (by simp), if_neg (fun h => h htestw)]
  · unfold setFFTSize
    rw [if_neg (by simp), if_neg (fun h => h htestw)]

/-- Claim C7 (amended): for every positive non-power-of-two size below
`2^32` — the range on which the JavaScript 32-bit bitwise test sees the size
unwrapped — `setFFTSize` on an analyzer with an allocated analyser node
leaves the stored transform size and both data buffers unchanged and signals
rejection via the diagnostic, without throwing.  Outside this range the
`ToInt32` truncation of `size & (size - 1)` can accept non-powers-of-two:
size 0 and wrap-around sizes such as `2^33 + 32` pass the test and overwrite
the stored size (see the counterexample). -/
theorem claim_C7 (st : AnalyzerState) (size : ℕ) (ha : st.hasAnalyser = true)
    (hpos : 0 < size) (hlt : size < 2 ^ 32) (hnp : ¬ ∃ k : ℕ, size = 2 ^ k) :
    setFFTSize st size = (st, true) := by
  have hland : size &&& (size - 1) ≠ 0 := fun h =>
    hnp (exists_pow_of_land_pred_eq_zero size hpos h)
  have hj1 : js32 (size : ℤ) = size := by
    unfold js32
    rw [Int.emod_eq_of_lt (by positivity) (by exact_mod_cast hlt), Int.toNat_natCast]
  have hj2 : js32 ((size : ℤ) - 1) = size - 1 := by
    unfold js32
    have he : (size : ℤ) - 1 = ((size - 1 : ℕ) : ℤ) := by omega
    rw [he, Int.emod_eq_of_lt (by positivity) (by exact_mod_cast (by omega : size - 1 < 2 ^ 32)),
      Int.toNat_natCast]
  unfold setFFTSize
  rw [if_neg (by simp [ha]), if_pos (by rw [hj1, hj2]; exact hland)]

/-- Claim C7 witness: the amended claim evaluated at size 4095 on a concrete
analyzer state. -/
theorem claim_C7_witness :
    (⟨true, 8, [0, 0, 0, 0], [0, 0, 0, 0]⟩ : AnalyzerState).hasAnalyser = true ∧
    0 < 4095 ∧ 4095 < 2 ^ 32 ∧ ¬ (∃ k : ℕ, (4095 : ℕ) = 2 ^ k) ∧
    setFFTSize ⟨true, 8, [0, 0, 0, 0], [0, 0, 0, 0]⟩ 4095 =
      (⟨true, 8, [0, 0, 0, 0], [0, 0, 0, 0]⟩, true) :=
  ⟨rfl, by decide, by norm_num, not_pow_two_4095,
    claim_C7 ⟨true, 8, [0, 0, 0, 0], [0, 0, 0, 0]⟩ 4095 rfl (by decide) (by norm_num)
      not_pow_two_4095⟩

/-- Claim C10: the size 0 is not a power of two, yet it passes the
power-of-two rejection test of `setFFTSize` — JavaScript evaluates
`0 & (0 - 1)` as `0 & -1`, whose 32-bit pattern AND `js32 0 &&& js32 (-1)` is
0 — so the call is not rejected and the stored transform size becomes 0
instead of the previous configuration being retained (the stored size is
overwritten before the external analyser setter could object). -/
theorem claim_C10 (st : AnalyzerState) (ha : st.hasAnalyser = true) :
    ¬ (∃ k : ℕ, (0 : ℕ) = 2 ^ k) ∧ js32 ((0 : ℕ) : ℤ) &&& js32 (((0 : ℕ) : ℤ) - 1) = 0 ∧
    (setFFTSize st 0).2 = false ∧ (setFFTSize st 0).1.fftSize = 0 := by
  have htest0 : js32 ((0 : ℕ) : ℤ) &&& js32 (((0 : ℕ) : ℤ) - 1) = 0 := by decide
  refine ⟨?_, htest0, ?_, ?_⟩
  · rintro ⟨k, hk⟩
    exact (pow_pos (by norm_num : (0 : ℕ) < 2) k).ne hk
  · unfold setFFTSize
    rw [if_neg (by simp [ha]), if_neg (fun h => h htest0)]
  · unfold setFFTSize
    rw [if_neg (by simp [ha]), if_neg (fun h => h htest0)]

/-- Claim C10 witness: the claim evaluated on the default configuration
(transform size 8192, buffers of length 4096). -/
theorem claim_C10_witness :
    (⟨true, 8192, List.replicate 4096 0, List.replicate 4096 0⟩ : AnalyzerState).hasAnalyser
        = true ∧
    (¬ (∃ k : ℕ, (0 : ℕ) = 2 ^ k) ∧
      js32 ((0 : ℕ) : ℤ) &&& js32 (((0 : ℕ) : ℤ) - 1) = 0 ∧
      (setFFTSize ⟨true, 8192, List.replicate 4096 0, List.replicate 4096 0⟩ 0).2 = false ∧
      (setFFTSize ⟨true, 8192, List.replicate 4096 0, List.replicate 4096 0⟩ 0).1.fftSize = 0) :=
  ⟨rfl, claim_C10 ⟨true, 8192, List.replicate 4096 0, List.replicate 4096 0⟩ rfl⟩

/-- Every band produced by the linear mapping loop body is a stored byte or
the fill value 0, hence at most 255 when the buffer holds bytes. -/
theorem normalizedBandValue_le (freqData : List ℕ) (sampleRate : ℚ) (bands i : ℕ)
    (hbyte : ∀ v ∈ freqData, v ≤ 255) :
    normalizedBandValue freqData sampleRate bands i ≤ 255 := by
  unfold normalizedBandValue
  cases h1 : jsDiv (i : ℚ) ((bands : ℚ) - 1) with
  | none => simp
  | some t =>
    simp only
    cases h2 : jsDiv (20 + t * (20000 - 20)) (sampleRate / 2 / (freqData.length : ℚ)) with
    | none => simp
    | some e =>
      simp only
      split
      · exact getD_le_of_forall_le freqData _ 0 255 hbyte (by norm_num)
      · norm_num

/-- One step of the file-processor accumulation keeps the band list at its
requested length with all entries at most 255. -/
theorem fileStep_preserves (freqData : List ℕ) (binFreq : ℚ) (bands : ℕ)
    (r : List ℕ) (i : ℕ) (hlen : r.length = bands) (hval : ∀ v ∈ r, v ≤ 255)
    (hbyte : ∀ v ∈ freqData, v ≤ 255) :
    (fileStep freqData binFreq bands r i).length = bands ∧
    (∀ v ∈ fileStep freqData binFreq bands r i, v ≤ 255) := by
  simp only [fileStep]
  split
  · exact ⟨hlen, hval⟩
  · split
    · constructor
      · simpa using hlen
      · intro v hv
        rcases List.mem_or_eq_of_mem_set hv with h | rfl
        · exact hval v h
        · exact max_le (getD_le_of_forall_le r _ 0 255 hval (by norm_num))
            (getD_le_of_forall_le freqData _ 0 255 hbyte (by norm_num))
    · exact ⟨hlen, hval⟩

/-- Claim C1: for every `bands ≥ 1` and every raw magnitude spectrum of bytes
(including the empty or unavailable one), both normalized-spectrum mappings
(`AudioAnalyzer.getNormalizedSpectrum` and
`AudioFileProcessor.getNormalizedSpectrum`) return exactly `bands` values,
each within `[0, 255]` (the values are naturals, hence nonnegative), and an
empty or unavailable raw spectrum yields all-zero bands of the requested
length. -/
theorem claim_C1 (freqData : List ℕ) (sampleRate : ℚ) (fftSize bands : ℕ)
    (hbands : 1 ≤ bands) (hbyte : ∀ v ∈ freqData, v ≤ 255) :
    (getNormalizedSpectrum freqData sampleRate bands).length = bands ∧
    (∀ v ∈ getNormalizedSpectrum freqData sampleRate bands, v ≤ 255) ∧
    (freqData = [] → getNormalizedSpectrum freqData sampleRate bands = List.replicate bands 0) ∧
    (fileGetNormalizedSpectrum freqData sampleRate fftSize bands).length = bands ∧
    (∀ v ∈ fileGetNormalizedSpectrum freqData sampleRate fftSize bands, v ≤ 255) ∧
    (freqData = [] →
      fileGetNormalizedSpectrum freqData sampleRate fftSize bands = List.replicate bands 0) := by
  have hfile : (fileGetNormalizedSpectrum freqData sampleRate fftSize bands).length = bands ∧
      ∀ v ∈ fileGetNormalizedSpectrum freqData sampleRate fftSize bands, v ≤ 255 := by
    simp only [fileGetNormalizedSpectrum]
    refine foldl_preserves _ (fun r : List ℕ => r.length = bands ∧ ∀ v ∈ r, v ≤ 255) _ _
      ⟨by simp, ?_⟩ ?_
    · intro v hv
      rw [List.eq_of_mem_replicate hv]
      norm_num
    · intro x y hx _
      exact fileStep_preserves freqData _ bands x y hx.1 hx.2 hbyte
  refine ⟨?_, ?_, ?_, hfile.1, hfile.2, ?_⟩
  · unfold getNormalizedSpectrum
    split
    · simp
    · simp
  · intro v hv
    unfold getNormalizedSpectrum at hv
    split at hv
    · rw [List.eq_of_mem_replicate hv]
      norm_num
    · obtain ⟨i, _, rfl⟩ := List.mem_map.mp hv
      exact normalizedBandValue_le freqData sampleRate bands i hbyte
  · intro h
    subst h
    simp [getNormalizedSpectrum]
  · intro h
    subst h
    simp only [fileGetNormalizedSpectrum, List.length_nil, Nat.cast_zero]
    rw [Int.toNat_of_nonpos (min_le_right _ 0)]
    simp

/-- Claim C1 witness: the claim evaluated on a concrete two-bin byte spectrum
with two requested bands. -/
theorem claim_C1_witness :
    1 ≤ 2 ∧ (∀ v ∈ ([10, 20] : List ℕ), v ≤ 255) ∧
    ((getNormalizedSpectrum [10, 20] 44100 2).length = 2 ∧
      (∀ v ∈ getNormalizedSpectrum [10, 20] 44100 2, v ≤ 255) ∧
      (([10, 20] : List ℕ) = [] → getNormalizedSpectrum [10, 20] 44100 2 = List.replicate 2 0) ∧
      (fileGetNormalizedSpectrum [10, 20] 44100 4 2).length = 2 ∧
      (∀ v ∈ fileGetNormalizedSpectrum [10, 20] 44100 4 2, v ≤ 255) ∧
      (([10, 20] : List ℕ) = [] →
        fileGetNormalizedSpectrum [10, 20] 44100 4 2 = List.replicate 2 0)) :=
  ⟨by decide, by decide, claim_C1 [10, 20] 44100 4 2 (by decide) (by decide)⟩

/-- First projection of the peak-search step is the running maximum. -/
theorem pitchStep_fst (x : List ℕ) (acc : ℤ × ℤ) (lag : ℕ) :
    (pitchStep x acc lag).1 = max acc.1 (correlationAt x lag) := by
  unfold pitchStep
  split
  next h => exact (max_eq_right (le_of_lt h)).symm
  next h => exact (max_eq_left (not_lt.mp h)).symm

/-- First projection of the folded peak search is a fold of maxima. -/
theorem pitchFold_fst (x : List ℕ) :
    ∀ (l : List ℕ) (acc : ℤ × ℤ),
      (l.foldl (pitchStep x) acc).1 =
        l.foldl (fun c lag => max c (correlationAt x lag)) acc.1 := by
  intro l
  induction l with
  | nil => intro acc; rfl
  | cons a t ih =>
    intro acc
    rw [List.foldl_cons, List.foldl_cons, ih (pitchStep x acc a), pitchStep_fst]

/-- A fold of maxima dominates its starting value. -/
theorem le_foldl_max (x : List ℕ) :
    ∀ (l : List ℕ) (m : ℤ), m ≤ l.foldl (fun c lag => max c (correlationAt x lag)) m := by
  intro l
  induction l with
  | nil => intro m; exact le_refl m
  | cons a t ih =>
    intro m
    rw [List.foldl_cons]
    exact le_trans (le_max_left _ _) (ih _)

/-- A fold of maxima dominates the correlation of every searched lag. -/
theorem foldl_max_ge_mem (x : List ℕ) :
    ∀ (l : List ℕ) (m : ℤ) (lag : ℕ), lag ∈ l →
      correlationAt x lag ≤ l.foldl (fun c lag0 => max c (correlationAt x lag0)) m := by
  intro l
  induction l with
  | nil => intro m lag h; cases h
  | cons a t ih =>
    intro m lag h
    rw [List.foldl_cons]
    rcases List.mem_cons.mp h with rfl | h2
    · exact le_trans (le_max_right _ _) (le_foldl_max x t _)
    · exact ih _ lag h2

/-- The folded peak search either keeps its initial accumulator or ends at a
searched lag whose correlation is the recorded maximum. -/
theorem pitchFold_snd (x : List ℕ) :
    ∀ (l : List ℕ) (acc : ℤ × ℤ),
      l.foldl (pitchStep x) acc = acc ∨
      ∃ lag ∈ l, (l.foldl (pitchStep x) acc).2 = (lag : ℤ) ∧
        (l.foldl (pitchStep x) acc).1 = correlationAt x lag := by
  intro l
  induction l with
  | nil => intro acc; left; rfl
  | cons a t ih =>
    intro acc
    rw [List.foldl_cons]
    rcases ih (pitchStep x acc a) with h | ⟨lag, hmem, h2, h1⟩
    · rw [h]
      unfold pitchStep
      split
      · right
        exact ⟨a, List.mem_cons_self a t, rfl, rfl⟩
      · left; rfl
    · right
      exact ⟨lag, List.mem_cons_of_mem a hmem, h2, h1⟩

/-- Unfolding of `detectPitch` into the peak search over the buffer. -/
theorem detectPitch_eq (x : List ℕ) (sampleRate : ℚ) :
    detectPitch x sampleRate =
      if (pitchSearch x (⌊sampleRate / 1000⌋).toNat x.length).2 ≤ 0 then 0
      else sampleRate / (((pitchSearch x (⌊sampleRate / 1000⌋).toNat x.length).2 : ℤ) : ℚ) :=
  rfl

/-- A left fold of additions is the sum of the generated terms. -/
theorem foldl_add_eq_sum (g : ℕ → ℤ) :
    ∀ (l : List ℕ) (c : ℤ), l.foldl (fun acc i => acc + g i) c = c + (l.map g).sum := by
  intro l
  induction l with
  | nil => intro c; simp
  | cons a t ih =>
    intro c
    rw [List.foldl_cons, ih]
    simp [add_assoc]

/-- Every autocorrelation of a constant-128 (silent) buffer vanishes. -/
theorem correlationAt_replicate_128 (n lag : ℕ) :
    correlationAt (List.replicate n 128) lag = 0 := by
  unfold correlationAt
  simp only [List.length_replicate]
  rw [foldl_add_eq_sum, zero_add]
  apply List.sum_eq_zero
  intro y hy
  obtain ⟨i, hi, rfl⟩ := List.mem_map.mp hy
  have hilt : i < n - lag := List.mem_range.mp hi
  have h128 : (List.replicate n (128 : ℕ)).getD i 0 = 128 := by
    rw [List.getD_eq_getElem _ _ (by simp; omega)]
    simp
  rw [h128]
  norm_num

/-- When all correlations vanish, the peak search never moves off an
accumulator whose recorded maximum is already 0. -/
theorem pitchFold_const_zero (x : List ℕ) (hcorr : ∀ lag, correlationAt x lag = 0) :
    ∀ (l : List ℕ) (m : ℤ), l.foldl (pitchStep x) (0, m) = (0, m) := by
  intro l
  induction l with
  | nil => intro m; rfl
  | cons a t ih =>
    intro m
    rw [List.foldl_cons]
    have hstep : pitchStep x (0, m) a = (0, m) := by
      unfold pitchStep
      rw [hcorr a]
      norm_num
    rw [hstep, ih]

/-- Claim C2 counterexample: a silent buffer (eight samples of 128) at sample
rate 1000 Hz makes `detectPitch` return 1000, not 0 — the zero correlation at
the first searched lag still exceeds the initial maximum of -1, so
`maxLag = floor(sampleRate/1000) = 1` and the result is `1000 / 1`. -/
theorem claim_C2_counterexample :
    detectPitch (List.replicate 8 128) 1000 = 1000 ∧ (1000 : ℚ) ≠ 0 :=
  ⟨by
    norm_num [detectPitch, pitchSearch, pitchStep, correlationAt, List.range'_succ,
      List.range_succ], by norm_num⟩

/-- Claim C2 (amended): on a silent (constant-128) waveform of length `n`,
`detectPitch` returns 0 exactly when `floor(sampleRate/1000)` is 0 or at least
`n`; otherwise it returns `sampleRate / floor(sampleRate/1000)`, the frequency
of the minimum searched lag, because the all-zero correlation still beats the
initial maximum of -1 at the first searched lag. -/
theorem claim_C2 (n : ℕ) (sampleRate : ℚ) (hsr : 0 ≤ sampleRate) :
    detectPitch (List.replicate n 128) sampleRate =
      if (⌊sampleRate / 1000⌋).toNat = 0 ∨ n ≤ (⌊sampleRate / 1000⌋).toNat then 0
      else sampleRate / (((⌊sampleRate / 1000⌋).toNat : ℕ) : ℚ) := by
  set s := (⌊sampleRate / 1000⌋).toNat with hs
  rw [detectPitch_eq]
  simp only [List.length_replicate, ← hs]
  rcases Nat.lt_or_ge s n with hlt | hge
  · have hdecomp : List.range' s (n - s) = s :: List.range' (s + 1) (n - s - 1) := by
      obtain ⟨m, hm⟩ : ∃ m, n - s = m + 1 := ⟨n - s - 1, by omega⟩
      rw [hm, List.range'_succ]
      norm_num
    have hstep1 : pitchStep (List.replicate n 128) (-1, -1) s = (0, (s : ℤ)) := by
      unfold pitchStep
      rw [correlationAt_replicate_128]
      norm_num
    have hsearch : pitchSearch (List.replicate n 128) s n = (0, (s : ℤ)) := by
      rw [pitchSearch]
      rw [hdecomp, List.foldl_cons, hstep1,
        pitchFold_const_zero _ (correlationAt_replicate_128 n) _ _]
    rw [hsearch]
    rcases Nat.eq_zero_or_pos s with hz | hpos
    · rw [if_pos (by rw [hz]; simp), if_pos (Or.inl hz)]
    · rw [if_neg (by simp; omega), if_neg (by omega)]
      simp
  · have h0 : n - s = 0 := by omega
    rw [pitchSearch]
    rw [h0, List.range'_zero, List.foldl_nil]
    rw [if_pos (by simp), if_pos (Or.inr hge)]

/-- Claim C2 witness: the amended claim evaluated on a silent eight-sample
buffer at sample rate 1000 Hz. -/
theorem claim_C2_witness :
    (0 : ℚ) ≤ 1000 ∧
    detectPitch (List.replicate 8 128) 1000 =
      (if (⌊(1000 : ℚ) / 1000⌋).toNat = 0 ∨ 8 ≤ (⌊(1000 : ℚ) / 1000⌋).toNat then 0
       else 1000 / (((⌊(1000 : ℚ) / 1000⌋).toNat : ℕ) : ℚ)) :=
  ⟨by norm_num, claim_C2 8 1000 (by norm_num)⟩

/-- Claim C3: on an available waveform `x` of length `N` with nonnegative
sample rate, `detectPitch` computes the autocorrelation
`corr[lag] = Σ_{i<N-lag} (x[i]-128)(x[i+lag]-128)` (this is `correlationAt`),
searches the lags in `[floor(sampleRate/1000), N)` for the maximising lag,
returns 0 when no lag was recorded (in particular when the range is empty, or
when only the non-positive lag 0 was recorded), and otherwise returns
`sampleRate / maxLag` for a positive maximising lag; moreover a nonzero result
is guaranteed whenever the search range is nonempty, starts at a positive lag
and contains some lag of nonnegative correlation. -/
theorem claim_C3 (x : List ℕ) (sampleRate : ℚ) (hsr : 0 ≤ sampleRate) :
    (x.length ≤ (⌊sampleRate / 1000⌋).toNat → detectPitch x sampleRate = 0) ∧
    (detectPitch x sampleRate ≠ 0 →
      ∃ lag : ℕ, (⌊sampleRate / 1000⌋).toNat ≤ lag ∧ lag < x.length ∧ 0 < lag ∧
        (∀ l : ℕ, (⌊sampleRate / 1000⌋).toNat ≤ l → l < x.length →
          correlationAt x l ≤ correlationAt x lag) ∧
        detectPitch x sampleRate = sampleRate / (lag : ℚ)) ∧
    (1 ≤ (⌊sampleRate / 1000⌋).toNat → (⌊sampleRate / 1000⌋).toNat < x.length →
      (∃ l : ℕ, (⌊sampleRate / 1000⌋).toNat ≤ l ∧ l < x.length ∧ 0 ≤ correlationAt x l) →
      detectPitch x sampleRate ≠ 0) := by
  set s := (⌊sampleRate / 1000⌋).toNat with hs
  refine ⟨?_, ?_, ?_⟩
  · intro h
    rw [detectPitch_eq]
    have h0 : x.length - s = 0 := Nat.sub_eq_zero_of_le h
    simp only [pitchSearch, ← hs, h0, List.range'_zero, List.foldl_nil]
    simp
  · intro hne
    rw [detectPitch_eq, ← hs] at hne ⊢
    by_cases hml : (pitchSearch x s x.length).2 ≤ 0
    · rw [if_pos hml] at hne
      exact absurd rfl hne
    · rw [if_neg hml] at hne ⊢
      rcases pitchFold_snd x (List.range' s (x.length - s)) (-1, -1) with h | ⟨lag, hmem, h2, h1⟩
      · have hm1 : (pitchSearch x s x.length).2 = -1 := by rw [pitchSearch, h]
        rw [hm1] at hml
        norm_num at hml
      · have hps2 : (pitchSearch x s x.length).2 = (lag : ℤ) := by rw [pitchSearch]; exact h2
        have hps1 : (pitchSearch x s x.length).1 = correlationAt x lag := by
          rw [pitchSearch]; exact h1
        have hb := List.mem_range'_1.mp hmem
        rw [hps2] at hml
        refine ⟨lag, hb.1, by omega, by omega, ?_, ?_⟩
        · intro l hl1 hl2
          have hmax := foldl_max_ge_mem x (List.range' s (x.length - s)) (-1) l
            (List.mem_range'_1.mpr ⟨hl1, by omega⟩)
          have hmax2 : correlationAt x l ≤ (pitchSearch x s x.length).1 := by
            rw [pitchSearch, pitchFold_fst]
            exact hmax
          rw [hps1] at hmax2
          exact hmax2
        · rw [hps2]
          norm_num
  · rintro hs1 hsN ⟨l0, hl0s, hl0N, hl0c⟩
    rw [detectPitch_eq, ← hs]
    have hcorrle : correlationAt x l0 ≤ (pitchSearch x s x.length).1 := by
      rw [pitchSearch, pitchFold_fst]
      exact foldl_max_ge_mem x _ _ l0 (List.mem_range'_1.mpr ⟨hl0s, by omega⟩)
    rcases pitchFold_snd x (List.range' s (x.length - s)) (-1, -1) with h | ⟨lag, hmem, h2, h1⟩
    · have h1' : (pitchSearch x s x.length).1 = -1 := by rw [pitchSearch, h]
      rw [h1'] at hcorrle
      omega
    · have hps2 : (pitchSearch x s x.length).2 = (lag : ℤ) := by rw [pitchSearch]; exact h2
      have hb := List.mem_range'_1.mp hmem
      rw [if_neg (by rw [hps2]; omega)]
      have hsrpos : (1000 : ℚ) ≤ sampleRate := by
        have h1le : (1 : ℤ) ≤ ⌊sampleRate / 1000⌋ := by omega
        have hq := Int.le_floor.mp h1le
        push_cast at hq
        linarith
      have hsrne : sampleRate ≠ 0 := by linarith
      rw [hps2]
      refine div_ne_zero hsrne ?_
      exact_mod_cast (by omega : (lag : ℤ) ≠ 0)

/-- Claim C3 witness: the characterisation evaluated on a concrete
five-sample waveform at sample rate 2000 Hz (searched lags 2, 3, 4). -/
theorem claim_C3_witness :
    (0 : ℚ) ≤ 2000 ∧
    ((([128, 208, 128, 48, 128] : List ℕ).length ≤ (⌊(2000 : ℚ) / 1000⌋).toNat →
        detectPitch [128, 208, 128, 48, 128] 2000 = 0) ∧
      (detectPitch [128, 208, 128, 48, 128] 2000 ≠ 0 →
        ∃ lag : ℕ, (⌊(2000 : ℚ) / 1000⌋).toNat ≤ lag ∧
          lag < ([128, 208, 128, 48, 128] : List ℕ).length ∧ 0 < lag ∧
          (∀ l : ℕ, (⌊(2000 : ℚ) / 1000⌋).toNat ≤ l →
            l < ([128, 208, 128, 48, 128] : List ℕ).length →
            correlationAt [128, 208, 128, 48, 128] l ≤
              correlationAt [128, 208, 128, 48, 128] lag) ∧
          detectPitch [128, 208, 128, 48, 128] 2000 = 2000 / (lag : ℚ)) ∧
      (1 ≤ (⌊(2000 : ℚ) / 1000⌋).toNat →
        (⌊(2000 : ℚ) / 1000⌋).toNat < ([128, 208, 128, 48, 128] : List ℕ).length →
        (∃ l : ℕ, (⌊(2000 : ℚ) / 1000⌋).toNat ≤ l ∧
          l < ([128, 208, 128, 48, 128] : List ℕ).length ∧
          0 ≤ correlationAt [128, 208, 128, 48, 128] l) →
        detectPitch [128, 208, 128, 48, 128] 2000 ≠ 0)) :=
  ⟨by norm_num, claim_C3 [128, 208, 128, 48, 128] 2000 (by norm_num)⟩

/-- Claim C4 (code-bug evidence): the sub-100 Hz boost factor of
`getCustomFrequencyData` is `1.2 + (1 - f/100) * 0.8`, a linear function that
equals 2.0 at 0 Hz and only 1.84 (= 46/25) at 20 Hz, contradicting both the
claim and the code's own inline comment that the factor is 2.0 at 20 Hz; on a
flat ten-bin spectrum of value 100 with sample rate 2000 Hz, the 20 Hz point
is mapped to 184, where a factor of 2.0 would give 200. -/
theorem claim_C4 :
    boostFactor 20 = 46 / 25 ∧ boostFactor 0 = 2 ∧ (46 : ℚ) / 25 ≠ 2 ∧
    customValueAt (List.replicate 10 100) 2000 20 = 184 ∧ (184 : ℚ) ≠ 200 := by
  refine ⟨by norm_num [boostFactor], by norm_num [boostFactor], by norm_num, ?_, by norm_num⟩
  have hc1 : (⌈(49 : ℚ) / 10⌉ : ℤ) = 5 := by rw [Int.ceil_eq_iff]; norm_num
  have hc2 : (⌈(1 : ℚ) / 5⌉ : ℤ) = 1 := by rw [Int.ceil_eq_iff]; norm_num
  have ht : (5 : ℤ).toNat = 5 := rfl
  norm_num [customValueAt, lowFreqAccum, boostFactor, List.range'_succ, List.replicate,
    hc1, hc2]
  norm_num [ht, List.range'_succ, List.flatMap_cons, List.flatMap_nil]
  simp
  norm_num

/-- Claim C5 counterexample: with the one-bin spectrum `[7]` at 44100 Hz and
two requested bands, the second band (target 20000 Hz) computes the rounded
bin index 1, which is outside the valid range `[0, 1)`, yet
`getNormalizedSpectrum` returns 0 for that band instead of the nearest
boundary bin value 7. -/
theorem claim_C5_counterexample :
    getNormalizedSpectrum [7] 44100 2 = [7, 0] ∧
    jsRound (20000 / ((44100 : ℚ) / 2 / 1)) = 1 ∧
    ¬ ((1 : ℤ) < (([7] : List ℕ).length : ℤ)) ∧
    ([7] : List ℕ).getD (([7] : List ℕ).length - 1) 0 = 7 ∧ (0 : ℕ) ≠ 7 := by
  refine ⟨?_, ?_, by norm_num, by norm_num [List.getD], by norm_num⟩
  · norm_num [getNormalizedSpectrum, normalizedBandValue, jsDiv, jsRound, List.range_succ]
  · norm_num [jsRound]

/-- Claim C5 (amended): the boundary-bin fallback for out-of-range computed
indices holds for `getCustomFrequencyData` (a low index yields bin 0, a high
index yields the last bin) and for the `animate` mapping of
SpectrumAnalyzer.tsx (the index is clamped to the nearest valid bin), but not
for `getNormalizedSpectrum`, which leaves any band with an out-of-range
rounded index at 0 even when the raw spectrum is non-empty. -/
theorem claim_C5 (freqData : List ℕ) (sampleRate : ℚ) (bands i : ℕ)
    (rawData : List ℚ) (n : ℕ) (f g : ℚ)
    (hne : freqData ≠ []) (hsr : sampleRate ≠ 0) (hbands : 2 ≤ bands) :
    (⌊g / (sampleRate / 2 / (freqData.length : ℚ))⌋ < 0 →
      customValueAt freqData sampleRate g = (freqData.getD 0 0 : ℚ)) ∧
    (0 ≤ ⌊g / (sampleRate / 2 / (freqData.length : ℚ))⌋ →
      (freqData.length : ℤ) ≤ ⌈g / (sampleRate / 2 / (freqData.length : ℚ))⌉ →
      customValueAt freqData sampleRate g = (freqData.getD (freqData.length - 1) 0 : ℚ)) ∧
    ((⌊f / (sampleRate / 2 / (n : ℚ))⌋ < 0 ∨ (n : ℤ) ≤ ⌊f / (sampleRate / 2 / (n : ℚ))⌋) →
      animateBandValue rawData n sampleRate f =
        rawData.getD (min (max 0 ⌊f / (sampleRate / 2 / (n : ℚ))⌋) ((n : ℤ) - 1)).toNat 0) ∧
    ((jsRound ((20 + ((i : ℚ) / ((bands : ℚ) - 1)) * (20000 - 20)) /
          (sampleRate / 2 / (freqData.length : ℚ))) < 0 ∨
      (freqData.length : ℤ) ≤ jsRound ((20 + ((i : ℚ) / ((bands : ℚ) - 1)) * (20000 - 20)) /
          (sampleRate / 2 / (freqData.length : ℚ)))) →
      normalizedBandValue freqData sampleRate bands i = 0) := by
  refine ⟨?_, ?_, ?_, ?_⟩
  · intro hg
    simp only [customValueAt]
    rw [if_neg (fun hc => absurd hc.1 (not_le.mpr hg)), if_pos hg]
  · intro hg1 hg2
    simp only [customValueAt]
    rw [if_neg (fun hc => absurd hc.2 (not_lt.mpr hg2)), if_neg (not_lt.mpr hg1)]
  · intro hf
    simp only [animateBandValue]
    rw [if_neg (by omega)]
  · intro hidx
    have hb1 : ((bands : ℚ) - 1) ≠ 0 := by
      have h2 : (2 : ℚ) ≤ (bands : ℚ) := by exact_mod_cast hbands
      linarith
    have hlen : ((freqData.length : ℚ)) ≠ 0 := by
      have := List.length_pos.mpr hne
      positivity
    have hfpb : (sampleRate / 2 / (freqData.length : ℚ)) ≠ 0 :=
      div_ne_zero (div_ne_zero hsr two_ne_zero) hlen
    simp only [normalizedBandValue, jsDiv, if_neg hb1, if_neg hfpb]
    rw [if_neg (by omega)]

/-- Claim C5 witness: the amended edge policy evaluated on concrete data — a
one-bin spectrum `[7]` at 44100 Hz with two bands (band 1 has rounded index 1,
out of range), a one-bin raw array `[5]` for the animate mapping, and target
frequency 20000 Hz for the custom mapping. -/
theorem claim_C5_witness :
    ([7] : List ℕ) ≠ [] ∧ (44100 : ℚ) ≠ 0 ∧ 2 ≤ 2 ∧
    ((⌊(20000 : ℚ) / ((44100 : ℚ) / 2 / (([7] : List ℕ).length : ℚ))⌋ < 0 →
        customValueAt [7] 44100 20000 = (([7] : List ℕ).getD 0 0 : ℚ)) ∧
      (0 ≤ ⌊(20000 : ℚ) / ((44100 : ℚ) / 2 / (([7] : List ℕ).length : ℚ))⌋ →
        (([7] : List ℕ).length : ℤ) ≤
          ⌈(20000 : ℚ) / ((44100 : ℚ) / 2 / (([7] : List ℕ).length : ℚ))⌉ →
        customValueAt [7] 44100 20000 =
          (([7] : List ℕ).getD (([7] : List ℕ).length - 1) 0 : ℚ)) ∧
      ((⌊(20000 : ℚ) / ((44100 : ℚ) / 2 / ((1 : ℕ) : ℚ))⌋ < 0 ∨
          ((1 : ℕ) : ℤ) ≤ ⌊(20000 : ℚ) / ((44100 : ℚ) / 2 / ((1 : ℕ) : ℚ))⌋) →
        animateBandValue [5] 1 44100 20000 =
          ([5] : List ℚ).getD
            (min (max 0 ⌊(20000 : ℚ) / ((44100 : ℚ) / 2 / ((1 : ℕ) : ℚ))⌋)
              (((1 : ℕ) : ℤ) - 1)).toNat 0) ∧
      ((jsRound ((20 + (((1 : ℕ) : ℚ) / (((2 : ℕ) : ℚ) - 1)) * (20000 - 20)) /
            ((44100 : ℚ) / 2 / (([7] : List ℕ).length : ℚ))) < 0 ∨
        (([7] : List ℕ).length : ℤ) ≤
          jsRound ((20 + (((1 : ℕ) : ℚ) / (((2 : ℕ) : ℚ) - 1)) * (20000 - 20)) /
            ((44100 : ℚ) / 2 / (([7] : List ℕ).length : ℚ)))) →
        normalizedBandValue [7] 44100 2 1 = 0)) :=
  ⟨by simp, by norm_num, by norm_num,
    claim_C5 [7] 44100 2 1 [5] 1 20000 20000 (by simp) (by norm_num) (by norm_num)⟩

/-- Claim C6 counterexample: with the non-empty one-bin spectrum `[7]` at
44100 Hz, `getNormalizedSpectrum` with `bands = 1` returns `[0]`, not the raw
value at the 20 Hz bin index `round(20 / binWidth) = 0`, which holds 7. -/
theorem claim_C6_counterexample :
    getNormalizedSpectrum [7] 44100 1 = [0] ∧
    jsRound (20 / ((44100 : ℚ) / 2 / 1)) = 0 ∧
    ([7] : List ℕ).getD 0 0 = 7 ∧ (0 : ℕ) ≠ 7 := by
  refine ⟨?_, ?_, by norm_num [List.getD], by norm_num⟩
  · norm_num [getNormalizedSpectrum, normalizedBandValue, jsDiv, jsRound, List.range_succ]
  · norm_num [jsRound]

/-- Claim C6 (amended): for `bands = 1` the band-frequency expression
`i / (bands - 1)` is the JavaScript `0/0 = NaN`, the bin-range check fails,
and `getNormalizedSpectrum` returns `[0]` for every raw spectrum and sample
rate — the degenerate one-band case never reads the 20 Hz bin. -/
theorem claim_C6 (freqData : List ℕ) (sampleRate : ℚ) :
    getNormalizedSpectrum freqData sampleRate 1 = [0] := by
  unfold getNormalizedSpectrum
  split
  · rfl
  · norm_num [List.range_succ, normalizedBandValue, jsDiv]

/-- Claim C8: both logarithmic frequency-to-bin index computations are
monotone in the target frequency — the `animate` mapping of
src/unnamed/part_001 (`logBandIndex`) and the band-index computation of
`AudioFileProcessor.getNormalizedSpectrum` (`fileBandIndex`) never decrease
when the (positive) target frequency increases; in particular consecutive
band center frequencies map to nondecreasing source indices. -/
theorem claim_C8 (numRawDataBands bands : ℕ) (f1 f2 : ℝ)
    (hn : 1 ≤ numRawDataBands) (h1 : 0 < f1) (h12 : f1 ≤ f2) :
    logBandIndex numRawDataBands f1 ≤ logBandIndex numRawDataBands f2 ∧
    fileBandIndex bands f1 ≤ fileBandIndex bands f2 := by
  have hb : (1 : ℝ) < 10 := by norm_num
  have hlogb : Real.logb 10 f1 ≤ Real.logb 10 f2 := Real.logb_le_logb_of_le hb h1 h12
  constructor
  · simp only [logBandIndex]
    have hden : 0 < Real.logb 10 20000 - Real.logb 10 20 := by
      have := Real.logb_lt_logb hb (by norm_num : (0 : ℝ) < 20)
        (by norm_num : (20 : ℝ) < 20000)
      linarith
    have hfrac : (Real.logb 10 f1 - Real.logb 10 20) / (Real.logb 10 20000 - Real.logb 10 20) ≤
        (Real.logb 10 f2 - Real.logb 10 20) / (Real.logb 10 20000 - Real.logb 10 20) :=
      (div_le_div_iff_of_pos_right hden).mpr (by linarith)
    have hnn : (0 : ℝ) ≤ (numRawDataBands : ℝ) - 1 := by
      have hc : (1 : ℝ) ≤ (numRawDataBands : ℝ) := by exact_mod_cast hn
      linarith
    exact Int.floor_le_floor (mul_le_mul_of_nonneg_right
      (max_le_max le_rfl (min_le_min hfrac le_rfl)) hnn)
  · simp only [fileBandIndex]
    refine min_le_min ?_ le_rfl
    refine Int.floor_le_floor ?_
    have hden2 : 0 < Real.logb 10 ((20000 : ℝ) / 20) := by
      rw [(by norm_num : (20000 : ℝ) / 20 = 1000)]
      exact Real.logb_pos hb (by norm_num)
    refine (div_le_div_iff_of_pos_right hden2).mpr ?_
    refine mul_le_mul_of_nonneg_left ?_ (by positivity : (0 : ℝ) ≤ (bands : ℝ))
    exact Real.logb_le_logb_of_le hb (by positivity : (0 : ℝ) < f1 / 20)
      (by linarith : f1 / 20 ≤ f2 / 20)

/-- Claim C8 witness: monotonicity evaluated at the concrete frequencies
100 Hz and 200 Hz with 128 raw bands and 64 display bands. -/
theorem claim_C8_witness :
    1 ≤ 128 ∧ (0 : ℝ) < 100 ∧ (100 : ℝ) ≤ 200 ∧
    (logBandIndex 128 100 ≤ logBandIndex 128 200 ∧
      fileBandIndex 64 100 ≤ fileBandIndex 64 200) :=
  ⟨by norm_num, by norm_num, by norm_num,
    claim_C8 128 64 100 200 (by norm_num) (by norm_num) (by norm_num)⟩

/-- Claim C9: in the high-fidelity mapping of SpectrumAnalyzer.tsx, for a
target frequency below 2000 Hz whose primary bin index is in range, the band
value equals the maximum of the primary bin and the two neighbouring bins
weighted 0.8, with the neighbour indices clamped to the valid range; at or
above 2000 Hz the band value is the primary bin value alone. -/
theorem claim_C9 (rawData : List ℚ) (numRawDataBands : ℕ) (sampleRate targetFreq : ℚ)
    (hlo : 0 ≤ ⌊targetFreq / (sampleRate / 2 / (numRawDataBands : ℚ))⌋)
    (hhi : ⌊targetFreq / (sampleRate / 2 / (numRawDataBands : ℚ))⌋ < (numRawDataBands : ℤ)) :
    (targetFreq < 2000 →
      animateBandValue rawData numRawDataBands sampleRate targetFreq =
        max (rawData.getD (⌊targetFreq / (sampleRate / 2 / (numRawDataBands : ℚ))⌋).toNat 0)
          (max
            (0.8 * rawData.getD
              ((min (max 0 (⌊targetFreq / (sampleRate / 2 / (numRawDataBands : ℚ))⌋ - 1))
                ((numRawDataBands : ℤ) - 1)).toNat) 0)
            (0.8 * rawData.getD
              ((min (max 0 (⌊targetFreq / (sampleRate / 2 / (numRawDataBands : ℚ))⌋ + 1))
                ((numRawDataBands : ℤ) - 1)).toNat) 0))) ∧
    (2000 ≤ targetFreq →
      animateBandValue rawData numRawDataBands sampleRate targetFreq =
        rawData.getD (⌊targetFreq / (sampleRate / 2 / (numRawDataBands : ℚ))⌋).toNat 0) := by
  constructor
  · intro hf
    simp only [animateBandValue]
    rw [if_pos ⟨hlo, hhi⟩, if_pos hf]
    have e1 : max 0 (⌊targetFreq / (sampleRate / 2 / (numRawDataBands : ℚ))⌋ - 1) =
        min (max 0 (⌊targetFreq / (sampleRate / 2 / (numRawDataBands : ℚ))⌋ - 1))
          ((numRawDataBands : ℤ) - 1) := by omega
    have e2 : min ((numRawDataBands : ℤ) - 1)
          (⌊targetFreq / (sampleRate / 2 / (numRawDataBands : ℚ))⌋ + 1) =
        min (max 0 (⌊targetFreq / (sampleRate / 2 / (numRawDataBands : ℚ))⌋ + 1))
          ((numRawDataBands : ℤ) - 1) := by omega
    rw [e1, e2]
    simp [mul_comm]
  · intro hf
    simp only [animateBandValue]
    rw [if_pos ⟨hlo, hhi⟩, if_neg (not_lt.mpr hf)]

/-- Claim C9 witness: the neighbour-maximum rule evaluated on the concrete
raw array `[1, 2, 3, 4]` with 4 bands, sample rate 8 and target frequency 2
(primary bin index 2). -/
theorem claim_C9_witness :
    0 ≤ ⌊(2 : ℚ) / ((8 : ℚ) / 2 / ((4 : ℕ) : ℚ))⌋ ∧
    ⌊(2 : ℚ) / ((8 : ℚ) / 2 / ((4 : ℕ) : ℚ))⌋ < ((4 : ℕ) : ℤ) ∧
    (((2 : ℚ) < 2000 →
      animateBandValue [1, 2, 3, 4] 4 8 2 =
        max (([1, 2, 3, 4] : List ℚ).getD (⌊(2 : ℚ) / ((8 : ℚ) / 2 / ((4 : ℕ) : ℚ))⌋).toNat 0)
          (max
            (0.8 * ([1, 2, 3, 4] : List ℚ).getD
              ((min (max 0 (⌊(2 : ℚ) / ((8 : ℚ) / 2 / ((4 : ℕ) : ℚ))⌋ - 1))
                (((4 : ℕ) : ℤ) - 1)).toNat) 0)
            (0.8 * ([1, 2, 3, 4] : List ℚ).getD
              ((min (max 0 (⌊(2 : ℚ) / ((8 : ℚ) / 2 / ((4 : ℕ) : ℚ))⌋ + 1))
                (((4 : ℕ) : ℤ) - 1)).toNat) 0))) ∧
    ((2000 : ℚ) ≤ 2 →
      animateBandValue [1, 2, 3, 4] 4 8 2 =
        ([1, 2, 3, 4] : List ℚ).getD (⌊(2 : ℚ) / ((8 : ℚ) / 2 / ((4 : ℕ) : ℚ))⌋).toNat 0)) :=
  ⟨by norm_num, by norm_num, claim_C9 [1, 2, 3, 4] 4 8 2 (by norm_num) (by norm_num)⟩
